import Mathlib

/-!
Verification of the keyword-scoring-and-matching pipeline of the smart travel
search widget (`search.js`).  The data model and operations below are a shallow
embedding of that source file: JavaScript objects used as string-keyed score
maps become association lists, the destination catalog becomes a list of
structures, and the two fallible external collaborators (the text-analysis
service and the JSON parser for the catalog's keyword field) are passed in as
explicit oracle arguments.
-/

/-! ### String helpers

JavaScript `String.prototype.includes`, `String.prototype.toLowerCase` and
`keyword.slice(0, -2)` modelled over the character list of a `String`. -/

/-- Does the character list `l` start with `sub`? -/
def headMatch : List Char → List Char → Bool
  | _, [] => true
  | [], _ :: _ => false
  | a :: as, b :: bs => a == b && headMatch as bs

/-- Does the character list `l` contain `sub` as a contiguous run?
The empty `sub` is contained in every list, as for JS `includes`. -/
def hasSub : List Char → List Char → Bool
  | [], sub => sub.isEmpty
  | a :: as, sub => headMatch (a :: as) sub || hasSub as sub

/-- JS `s.includes(sub)`: substring containment. -/
def jsIncludes (s sub : String) : Bool :=
  hasSub s.data sub.data

/-- JS `s.toLowerCase()` (per-character lowering). -/
def toLowerCase (s : String) : String :=
  ⟨s.data.map Char.toLower⟩

/-- JS `s.slice(0, -2)`: the string without its last two characters. -/
def dropLast2 (s : String) : String :=
  ⟨s.data.dropLast.dropLast⟩

/-! ### The scorer (`PREDEFINED_KEYWORDS`, `fallbackScoring`,
`analyzeQueryWithClaude` in `search.js`) -/

/-- The fixed keyword vocabulary (`PREDEFINED_KEYWORDS` in `search.js`). -/
def PREDEFINED_KEYWORDS : List String :=
  ["beach", "mountain", "island", "city", "adventure", "cultural",
   "historical", "tropical", "winter", "summer", "family", "romantic",
   "budget", "luxury", "food", "nightlife", "nature", "photography"]

/-- A JS object used as a keyword-to-score map, as an association list in
insertion order. -/
abbrev ScoreMap := List (String × Nat)

/-- Property lookup `m[k]`: `some v` for a present key, `none` for `undefined`. -/
def lookupScore : ScoreMap → String → Option Nat
  | [], _ => none
  | (k', v) :: m, k => if k' = k then some v else lookupScore m k

/-- Property assignment `m[k] = v`: overwrite the existing entry, or append. -/
def setScore : ScoreMap → String → Nat → ScoreMap
  | [], k, v => [(k, v)]
  | (k', v') :: m, k, v => if k' = k then (k, v) :: m else (k', v') :: setScore m k v

/-- Compound assignment `m[k] += d` on a key that is present; a map without the
key is returned unchanged (in `search.js` every bumped key is always present,
since the base scoring step populates the whole fixed vocabulary first). -/
def bump : ScoreMap → String → Nat → ScoreMap
  | [], _, _ => []
  | (k', v) :: m, k, d => if k' = k then (k', v + d) :: m else (k', v) :: bump m k d

/-- The final clamp of `fallbackScoring`: `scores[key] = Math.min(scores[key], 10)`
for every key. -/
def capAll (m : ScoreMap) : ScoreMap :=
  m.map (fun p => (p.1, min p.2 10))

/-- The base scoring loop of `fallbackScoring`: 9 for a keyword contained in
the lower-cased query, 7 for its two-character truncation contained, else 1. -/
def baseScores (queryLower : String) : ScoreMap :=
  PREDEFINED_KEYWORDS.map (fun keyword =>
    (keyword,
      if jsIncludes queryLower keyword then 9
      else if jsIncludes queryLower (dropLast2 keyword) then 7
      else 1))

/-- The keywords whose scores the phrase-bonus rules of `fallbackScoring` add to. -/
def bonusKeywords : List String :=
  ["beach", "tropical", "mountain", "adventure", "nature",
   "luxury", "romantic", "historical", "cultural", "city"]

/-- The four additive phrase-bonus rules of `fallbackScoring`. -/
def phraseBonuses (queryLower : String) (scores : ScoreMap) : ScoreMap :=
  let scores :=
    if jsIncludes queryLower ("vacation") || jsIncludes queryLower ("holiday") then
      bump (bump scores ("beach") 2) ("tropical") 2
    else scores
  let scores :=
    if jsIncludes queryLower ("hiking") || jsIncludes queryLower ("trek") then
      bump (bump (bump scores ("mountain") 3) ("adventure") 3) ("nature") 3
    else scores
  let scores :=
    if jsIncludes queryLower ("resort") || jsIncludes queryLower ("spa") then
      bump (bump scores ("luxury") 3) ("romantic") 2
    else scores
  let scores :=
    if jsIncludes queryLower ("museum") || jsIncludes queryLower ("history") then
      bump (bump (bump scores ("historical") 3) ("cultural") 3) ("city") 2
    else scores
  scores

/-- `fallbackScoring(query)` from `search.js`: base scores over the fixed
vocabulary, then phrase bonuses, then the clamp at 10. -/
def fallbackScoring (query : String) : ScoreMap :=
  let queryLower := toLowerCase query
  capAll (phraseBonuses queryLower (baseScores queryLower))

/-- `analyzeQueryWithClaude(query)` from `search.js`, with the external
collaborator modelled as an oracle argument: `some m` stands for a response
from which a JSON object `m` was successfully extracted and parsed (it is then
returned as-is, without any validation), and `none` stands for every failure
path (network error, missing shape, no JSON match, parse error), all of which
fall back to `fallbackScoring`. -/
def analyzeQueryWithClaude (query : String) (claudeObject : Option ScoreMap) : ScoreMap :=
  match claudeObject with
  | some keywordScores => keywordScores
  | none => fallbackScoring query

/-- A score-map transform only ever raises the (present) value of a key. -/
def PreservesLB (f : ScoreMap → ScoreMap) : Prop :=
  ∀ m k u, lookupScore (f m) k = some u → ∃ w, lookupScore m k = some w ∧ w ≤ u

/-! ### The catalog (`DESTINATIONS` in `search.js`) -/

/-- A destination entity, as built by the catalog load in `search.js`. -/
structure Destination where
  id : String
  name : String
  keywords : List String
  image : String
  description : String
  region : String
  icon : String
deriving DecidableEq, Inhabited

/-- A raw catalog record as supplied by the catalog source
(`response.destinations` in `search.js`).  String fields are plain strings;
the empty string is the JS falsy case of the `dest.X ? ... : ...` and
`dest.X || ...` guards. -/
structure RawDest where
  DestinationID : String
  Name : String
  Country : String
  Keywords : String
  ImageURL : String
  Description : String
  Region : String
  Icon : String
deriving DecidableEq, Inhabited

/-- The per-record transform of the catalog load (`response.destinations.map`
in `search.js`).  `parseKeywords` is the `JSON.parse` oracle for the keyword
field: `some ks` is a successful parse to a string list, `none` is a parse
error, which is logged and leaves the keyword list empty. -/
def loadDestination (parseKeywords : String → Option (List String)) (dest : RawDest) :
    Destination :=
  let keywords : List String :=
    if dest.Keywords ≠ "" then
      match parseKeywords dest.Keywords with
      | some ks => ks
      | none => []
    else []
  { id := dest.DestinationID
    name := dest.Name ++ (if dest.Country ≠ "" then (", ") ++ dest.Country else (""))
    keywords := keywords
    image := dest.ImageURL
    description := dest.Description
    region := dest.Region
    icon := if dest.Icon ≠ "" then dest.Icon else ("fa-map-marker-alt") }

/-- The whole catalog load: every record is transformed independently. -/
def loadDestinations (parseKeywords : String → Option (List String))
    (raws : List RawDest) : List Destination :=
  raws.map (loadDestination parseKeywords)

/-! ### The matcher/ranker (`findMatchingDestinations` in `search.js`) -/

/-- One entry of the result list pushed by `findMatchingDestinations`. -/
structure MatchResult where
  id : String
  name : String
  score : Nat
  matchedKeywords : List (String × Nat)
  image : String
  description : String
  region : String
  icon : String
deriving DecidableEq, Inhabited

/-- Sort key of `matchedKeywords.sort((a, b) => b.score - a.score)`. -/
def pairGe (a b : String × Nat) : Prop := b.2 ≤ a.2

instance : DecidableRel pairGe := fun a b => Nat.decLe b.2 a.2

instance : IsTotal (String × Nat) pairGe := ⟨fun a b => Nat.le_total b.2 a.2⟩

instance : IsTrans (String × Nat) pairGe := ⟨fun _ _ _ h1 h2 => Nat.le_trans h2 h1⟩

/-- Sort key of the final `results.sort((a, b) => b.score - a.score)`. -/
def resGe (a b : MatchResult) : Prop := b.score ≤ a.score

instance : DecidableRel resGe := fun a b => Nat.decLe b.score a.score

instance : IsTotal MatchResult resGe := ⟨fun a b => Nat.le_total b.score a.score⟩

instance : IsTrans MatchResult resGe := ⟨fun _ _ _ h1 h2 => Nat.le_trans h2 h1⟩

/-- The `results.push({...})` literal: the matched-keyword list is sorted by
score descending (stably, as ECMAScript requires) and truncated to the top 3,
while `score` keeps the full total. -/
def mkResult (destination : Destination) (totalScore : Nat)
    (matched : List (String × Nat)) : MatchResult :=
  { id := destination.id
    name := destination.name
    score := totalScore
    matchedKeywords := (List.insertionSort pairGe matched).take 3
    image := destination.image
    description := destination.description
    region := destination.region
    icon := destination.icon }

/-- The inner `destination.keywords.forEach` accumulation: the running total
and the pushed `(keyword, score)` pairs.  The JS guard
`keywordScores[keyword] && keywordScores[keyword] > threshold` is a truthiness
test (`undefined` and `0` short-circuit) followed by the comparison. -/
def destinationTally (keywordScores : ScoreMap) (threshold : Nat)
    (destination : Destination) : Nat × List (String × Nat) :=
  destination.keywords.foldl
    (fun acc keyword =>
      match lookupScore keywordScores keyword with
      | some v => if v ≠ 0 ∧ threshold < v then (acc.1 + v, acc.2 ++ [(keyword, v)]) else acc
      | none => acc)
    (0, [])

/-- The first `DESTINATIONS.forEach` pass of `findMatchingDestinations`
(threshold 5 in the source; the threshold is a parameter here), including its
skip of destinations whose keyword list is empty. -/
def passOne (keywordScores : ScoreMap) (threshold : Nat) :
    List Destination → List MatchResult
  | [] => []
  | destination :: rest =>
    if destination.keywords.isEmpty then passOne keywordScores threshold rest
    else
      let tally := destinationTally keywordScores threshold destination
      if 0 < tally.1 then
        mkResult destination tally.1 tally.2 :: passOne keywordScores threshold rest
      else passOne keywordScores threshold rest

/-- The second `DESTINATIONS.forEach` pass (threshold 3 in the source), which
guards only against a missing keyword array, not an empty one. -/
def passTwo (keywordScores : ScoreMap) (threshold : Nat) :
    List Destination → List MatchResult
  | [] => []
  | destination :: rest =>
    let tally := destinationTally keywordScores threshold destination
    if 0 < tally.1 then
      mkResult destination tally.1 tally.2 :: passTwo keywordScores threshold rest
    else passTwo keywordScores threshold rest

/-- `findMatchingDestinations(keywordScores)` from `search.js`: one pass at
threshold 5, a second pass at threshold 3 only if the first produced nothing,
and a final stable sort by total score descending. -/
def findMatchingDestinations (keywordScores : ScoreMap)
    (dests : List Destination) : List MatchResult :=
  let results := passOne keywordScores 5 dests
  let results := if results.isEmpty then passTwo keywordScores 3 dests else results
  List.insertionSort resGe results

/-! ### Declarative descriptions used to state the claims -/

/-- Declarative contribution list, following the spec's words: the
`(keyword, score)` pairs of exactly those keywords whose score is strictly
above the threshold, in keyword order. -/
def contribOf (scores : ScoreMap) (threshold : Nat) (ks : List String) :
    List (String × Nat) :=
  ks.filterMap (fun k =>
    match lookupScore scores k with
    | some v => if threshold < v then some (k, v) else none
    | none => none)

/-- Declarative total: the sum of the contributing scores. -/
def entityTotal (scores : ScoreMap) (threshold : Nat) (d : Destination) : Nat :=
  ((contribOf scores threshold d.keywords).map Prod.snd).sum

/-- The result the ranker builds for a destination with a positive total. -/
def resOf (scores : ScoreMap) (threshold : Nat) (d : Destination) : MatchResult :=
  mkResult d (entityTotal scores threshold d) (contribOf scores threshold d.keywords)

/-- The threshold of the pass whose results the ranker returns. -/
def activeThreshold (scores : ScoreMap) (dests : List Destination) : Nat :=
  if (passOne scores 5 dests).isEmpty then 3 else 5

/-- `a` occurs strictly before `b` (as result identifiers) in the list `l`. -/
def beforeIn (l : List MatchResult) (a b : String) : Prop :=
  ∃ ra rb, ra.id = a ∧ rb.id = b ∧ [ra, rb].Sublist l

/-! ### Concrete data used in examples and witnesses -/

/-- Example ScoreMap with two keywords above the first-pass threshold. -/
def demoScores : ScoreMap := [(("beach"), 7), (("island"), 6)]

/-- Example destination matching both demo keywords. -/
def demoDestA : Destination :=
  { id := "A", name := "A", keywords := [("beach"), ("island")], image := "",
    description := "", region := "", icon := "" }

/-- Example destination matching one demo keyword. -/
def demoDestB : Destination :=
  { id := "B", name := "B", keywords := [("island")], image := "",
    description := "", region := "", icon := "" }

/-- Example destination with the same keyword list as `demoDestB`. -/
def demoDestC : Destination :=
  { id := "C", name := "C", keywords := [("island")], image := "",
    description := "", region := "", icon := "" }

/-- Example two-destination catalog. -/
def demoDests : List Destination := [demoDestA, demoDestB]

/-- Example raw record whose keyword field is present but unparseable. -/
def demoRaw1 : RawDest :=
  { DestinationID := "D-001", Name := "Bali", Country := "Indonesia",
    Keywords := "not json", ImageURL := "", Description := "", Region := "",
    Icon := "" }

/-- Example raw record with a parseable keyword field. -/
def demoRaw2 : RawDest :=
  { DestinationID := "D-002", Name := "Kyoto", Country := "Japan",
    Keywords := "beach", ImageURL := "", Description := "", Region := "",
    Icon := "" }

/-- Example raw catalog. -/
def demoRaws : List RawDest := [demoRaw1, demoRaw2]

/-! ### Sanity examples -/

example : jsIncludes ("i want a beach vacation") ("beach") = true := by decide

example : lookupScore (fallbackScoring ("I want a beach vacation")) ("beach") = some 10 := by
  decide

example : lookupScore (fallbackScoring ("I want a beach vacation")) ("mountain") = some 1 := by
  decide

example : lookupScore (fallbackScoring ("museum history")) ("historical") = some 4 := by
  decide

example :
    (findMatchingDestinations [("beach", 7), ("island", 6)]
      [{ id := "A", name := "A", keywords := [("island"), ("beach")], image := "",
         description := "", region := "", icon := "" },
       { id := "B", name := "B", keywords := [("island")], image := "",
         description := "", region := "", icon := "" }]).map MatchResult.score
      = [13, 6] := by decide

example :
    findMatchingDestinations [("beach", 4)]
      [{ id := "A", name := "A", keywords := [("beach")], image := "",
         description := "", region := "", icon := "" }]
      = [{ id := "A", name := "A", score := 4, matchedKeywords := [(("beach"), 4)],
           image := "", description := "", region := "", icon := "" }] := by decide

/-! ### Score-map lemmas -/

theorem lookup_setScore (m : ScoreMap) (k : String) (v : Nat) (j : String) :
    lookupScore (setScore m k v) j = if k = j then some v else lookupScore m j := by
  induction m with
  | nil =>
    by_cases hj : k = j <;> simp [setScore, lookupScore, hj]
  | cons p m ih =>
    obtain ⟨k', v'⟩ := p
    by_cases hk : k' = k
    · subst hk
      by_cases hj : k' = j <;> simp [setScore, lookupScore, hj]
    · by_cases hj : k' = j
      · subst hj
        have hkj : ¬ k = k' := fun h => hk h.symm
        simp [setScore, lookupScore, hk, hkj]
      · simp [setScore, lookupScore, hk, hj, ih]

theorem lookup_bump (m : ScoreMap) (j : String) (d : Nat) (k : String) :
    lookupScore (bump m j d) k
      = if k = j then (lookupScore m k).map (· + d) else lookupScore m k := by
  induction m with
  | nil =>
    by_cases hj : k = j <;> simp [bump, lookupScore, hj]
  | cons p m ih =>
    obtain ⟨k', v⟩ := p
    by_cases hk : k' = j
    · subst hk
      by_cases hj : k' = k
      · subst hj
        simp [bump, lookupScore]
      · have hkj : ¬ k = k' := fun h => hj h.symm
        simp [bump, lookupScore, hj, hkj]
    · by_cases hj : k' = k
      · subst hj
        have : ¬ k' = j := hk
        simp [bump, lookupScore, hk, this]
      · simp [bump, lookupScore, hk, hj, ih]

theorem bump_fst (m : ScoreMap) (j : String) (d : Nat) :
    (bump m j d).map Prod.fst = m.map Prod.fst := by
  induction m with
  | nil => rfl
  | cons p m ih =>
    obtain ⟨k', v⟩ := p
    by_cases hk : k' = j <;> simp [bump, hk, ih]

theorem capAll_fst (m : ScoreMap) : (capAll m).map Prod.fst = m.map Prod.fst := by
  induction m with
  | nil => rfl
  | cons p m ih =>
    show (p.1, min p.2 10).1 :: (capAll m).map Prod.fst = p.1 :: m.map Prod.fst
    rw [ih]

theorem lookup_capAll (m : ScoreMap) (k : String) :
    lookupScore (capAll m) k = (lookupScore m k).map (fun v => min v 10) := by
  induction m with
  | nil => rfl
  | cons p m ih =>
    obtain ⟨k', v⟩ := p
    show lookupScore ((k', min v 10) :: capAll m) k = _
    by_cases hk : k' = k
    · simp [lookupScore, hk]
    · simp [lookupScore, hk, ih]

theorem lookup_map_pair (f : String → Nat) (ks : List String) (k : String)
    (hk : k ∈ ks) : lookupScore (ks.map (fun x => (x, f x))) k = some (f k) := by
  induction ks with
  | nil => cases hk
  | cons x ks ih =>
    by_cases hx : x = k
    · subst hx
      simp [lookupScore]
    · rcases List.mem_cons.mp hk with h | h
      · exact absurd h.symm hx
      · simp [lookupScore, hx, ih h]

theorem lookup_map_pair_inv (f : String → Nat) (ks : List String) (k : String)
    (u : Nat) (h : lookupScore (ks.map (fun x => (x, f x))) k = some u) : u = f k := by
  induction ks with
  | nil => simp [lookupScore] at h
  | cons x ks ih =>
    by_cases hx : x = k
    · subst hx
      simp [lookupScore] at h
      omega
    · simp [lookupScore, hx] at h
      exact ih h

theorem mem_keys_of_lookup_some (m : ScoreMap) (k : String) (v : Nat)
    (h : lookupScore m k = some v) : k ∈ m.map Prod.fst := by
  induction m with
  | nil => simp [lookupScore] at h
  | cons p m ih =>
    obtain ⟨k', v'⟩ := p
    by_cases hk : k' = k
    · subst hk
      simp
    · simp only [lookupScore, if_neg hk] at h
      simp only [List.map_cons]
      exact List.mem_cons_of_mem _ (ih h)

theorem lookup_some_of_mem_keys (m : ScoreMap) (k : String)
    (h : k ∈ m.map Prod.fst) : ∃ v, lookupScore m k = some v := by
  induction m with
  | nil => simp at h
  | cons p m ih =>
    obtain ⟨k', v'⟩ := p
    by_cases hk : k' = k
    · exact ⟨v', by simp [lookupScore, hk]⟩
    · simp only [List.map_cons] at h
      rcases List.mem_cons.mp h with h1 | h1
      · exact absurd h1.symm hk
      · obtain ⟨v, hv⟩ := ih h1
        exact ⟨v, by simp [lookupScore, hk, hv]⟩

theorem lookup_bump_some (m : ScoreMap) (j : String) (d : Nat) (k : String)
    (u : Nat) (h : lookupScore (bump m j d) k = some u) :
    ∃ w, lookupScore m k = some w ∧ w ≤ u := by
  rw [lookup_bump] at h
  by_cases hk : k = j
  · rw [if_pos hk] at h
    cases hm : lookupScore m k with
    | none => rw [hm] at h; cases h
    | some w =>
      rw [hm] at h
      refine ⟨w, rfl, ?_⟩
      simp at h
      omega
  · rw [if_neg hk] at h
    exact ⟨u, h, Nat.le_refl u⟩

/-! ### Fallback-scorer lemmas -/

theorem bump_PLB (j : String) (d : Nat) : PreservesLB (fun s => bump s j d) :=
  fun m k u h => lookup_bump_some m j d k u h

theorem comp_PLB (f g : ScoreMap → ScoreMap) (hf : PreservesLB f) (hg : PreservesLB g) :
    PreservesLB (fun s => g (f s)) := by
  intro m k u h
  obtain ⟨w1, h1, hle1⟩ := hg (f m) k u h
  obtain ⟨w, h0, hle0⟩ := hf m k w1 h1
  exact ⟨w, h0, Nat.le_trans hle0 hle1⟩

theorem cond_PLB (c : Bool) (f : ScoreMap → ScoreMap) (hf : PreservesLB f) :
    PreservesLB (fun s => if c then f s else s) := by
  intro m k u h
  cases c with
  | false => exact ⟨u, h, Nat.le_refl u⟩
  | true => exact hf m k u h

theorem phraseBonuses_some (q : String) : PreservesLB (phraseBonuses q) := by
  have h1 : PreservesLB (fun s =>
      if (jsIncludes q ("vacation") || jsIncludes q ("holiday")) then
        bump (bump s ("beach") 2) ("tropical") 2
      else s) :=
    cond_PLB _ _ (comp_PLB (fun s => bump s ("beach") 2) (fun s => bump s ("tropical") 2)
      (bump_PLB _ _) (bump_PLB _ _))
  have h2 : PreservesLB (fun s =>
      if (jsIncludes q ("hiking") || jsIncludes q ("trek")) then
        bump (bump (bump s ("mountain") 3) ("adventure") 3) ("nature") 3
      else s) :=
    cond_PLB _ _ (comp_PLB (fun s => bump (bump s ("mountain") 3) ("adventure") 3)
      (fun s => bump s ("nature") 3)
      (comp_PLB (fun s => bump s ("mountain") 3) (fun s => bump s ("adventure") 3)
        (bump_PLB _ _) (bump_PLB _ _))
      (bump_PLB _ _))
  have h3 : PreservesLB (fun s =>
      if (jsIncludes q ("resort") || jsIncludes q ("spa")) then
        bump (bump s ("luxury") 3) ("romantic") 2
      else s) :=
    cond_PLB _ _ (comp_PLB (fun s => bump s ("luxury") 3) (fun s => bump s ("romantic") 2)
      (bump_PLB _ _) (bump_PLB _ _))
  have h4 : PreservesLB (fun s =>
      if (jsIncludes q ("museum") || jsIncludes q ("history")) then
        bump (bump (bump s ("historical") 3) ("cultural") 3) ("city") 2
      else s) :=
    cond_PLB _ _ (comp_PLB (fun s => bump (bump s ("historical") 3) ("cultural") 3)
      (fun s => bump s ("city") 2)
      (comp_PLB (fun s => bump s ("historical") 3) (fun s => bump s ("cultural") 3)
        (bump_PLB _ _) (bump_PLB _ _))
      (bump_PLB _ _))
  intro m k u h
  exact comp_PLB _ _ (comp_PLB _ _ (comp_PLB _ _ h1 h2) h3) h4 m k u h

theorem base_lookup_ge_one (q k : String) (u : Nat)
    (h : lookupScore (baseScores q) k = some u) : 1 ≤ u := by
  have hu := lookup_map_pair_inv
    (fun keyword =>
      if jsIncludes q keyword then 9
      else if jsIncludes q (dropLast2 keyword) then 7
      else 1)
    PREDEFINED_KEYWORDS k u h
  rw [hu]
  show 1 ≤ if jsIncludes q k = true then 9
    else if jsIncludes q (dropLast2 k) = true then 7 else 1
  by_cases h1 : jsIncludes q k = true
  · rw [if_pos h1]
    omega
  · rw [if_neg h1]
    by_cases h2 : jsIncludes q (dropLast2 k) = true
    · rw [if_pos h2]
      omega
    · rw [if_neg h2]

theorem fallback_bounds (query k : String) (v : Nat)
    (h : lookupScore (fallbackScoring query) k = some v) : 1 ≤ v ∧ v ≤ 10 := by
  unfold fallbackScoring at h
  rw [lookup_capAll] at h
  cases hm : lookupScore
      (phraseBonuses (toLowerCase query) (baseScores (toLowerCase query))) k with
  | none => rw [hm] at h; cases h
  | some u =>
    rw [hm] at h
    simp only [Option.map_some'] at h
    obtain ⟨w, hw, hwu⟩ := phraseBonuses_some (toLowerCase query) _ k u hm
    have h1 : 1 ≤ w := base_lookup_ge_one _ _ _ hw
    have hv : min u 10 = v := Option.some.inj h
    omega

theorem map_pair_fst (f : String → Nat) (ks : List String) :
    (ks.map (fun x => (x, f x))).map Prod.fst = ks := by
  induction ks with
  | nil => rfl
  | cons x ks ih => simp [ih]

theorem baseScores_fst (q : String) : (baseScores q).map Prod.fst = PREDEFINED_KEYWORDS :=
  map_pair_fst _ _

theorem phraseBonuses_fst (q : String) (m : ScoreMap) :
    (phraseBonuses q m).map Prod.fst = m.map Prod.fst := by
  unfold phraseBonuses
  by_cases c1 : (jsIncludes q ("vacation") || jsIncludes q ("holiday")) = true <;>
    by_cases c2 : (jsIncludes q ("hiking") || jsIncludes q ("trek")) = true <;>
      by_cases c3 : (jsIncludes q ("resort") || jsIncludes q ("spa")) = true <;>
        by_cases c4 : (jsIncludes q ("museum") || jsIncludes q ("history")) = true <;>
          simp [c1, c2, c3, c4, bump_fst]

theorem fallback_fst (query : String) :
    (fallbackScoring query).map Prod.fst = PREDEFINED_KEYWORDS := by
  unfold fallbackScoring
  rw [capAll_fst, phraseBonuses_fst, baseScores_fst]

theorem fallback_covers (query k : String) (hk : k ∈ PREDEFINED_KEYWORDS) :
    ∃ v, lookupScore (fallbackScoring query) k = some v ∧ 1 ≤ v ∧ v ≤ 10 := by
  obtain ⟨v, hv⟩ := lookup_some_of_mem_keys (fallbackScoring query) k
    (by rw [fallback_fst]; exact hk)
  obtain ⟨h1, h2⟩ := fallback_bounds query k v hv
  exact ⟨v, hv, h1, h2⟩

/-! ### Ranker lemmas -/

theorem tally_eq (scores : ScoreMap) (t : Nat) (d : Destination) :
    destinationTally scores t d
      = (((contribOf scores t d.keywords).map Prod.snd).sum,
          contribOf scores t d.keywords) := by
  have go : ∀ (ks : List String) (a : Nat) (l : List (String × Nat)),
      ks.foldl
        (fun acc keyword =>
          match lookupScore scores keyword with
          | some v => if v ≠ 0 ∧ t < v then (acc.1 + v, acc.2 ++ [(keyword, v)]) else acc
          | none => acc)
        (a, l)
        = (a + ((contribOf scores t ks).map Prod.snd).sum, l ++ contribOf scores t ks) := by
    intro ks
    induction ks with
    | nil =>
      intro a l
      simp [contribOf]
    | cons k ks ih =>
      intro a l
      rw [List.foldl_cons]
      cases hl : lookupScore scores k with
      | none =>
        have hc : contribOf scores t (k :: ks) = contribOf scores t ks := by
          simp [contribOf, List.filterMap_cons, hl]
        rw [hc]
        exact ih a l
      | some v =>
        show List.foldl
            (fun acc keyword =>
              match lookupScore scores keyword with
              | some v => if v ≠ 0 ∧ t < v then (acc.1 + v, acc.2 ++ [(keyword, v)]) else acc
              | none => acc)
            (if v ≠ 0 ∧ t < v then (a + v, l ++ [(k, v)]) else (a, l)) ks
            = (a + ((contribOf scores t (k :: ks)).map Prod.snd).sum,
                l ++ contribOf scores t (k :: ks))
        by_cases hv : t < v
        · have hv0 : v ≠ 0 := by omega
          rw [if_pos ⟨hv0, hv⟩]
          have hc : contribOf scores t (k :: ks) = (k, v) :: contribOf scores t ks := by
            simp [contribOf, List.filterMap_cons, hl, hv]
          rw [hc, ih (a + v) (l ++ [(k, v)])]
          simp [Nat.add_assoc, List.append_assoc]
        · have hnand : ¬ (v ≠ 0 ∧ t < v) := fun hh => hv hh.2
          rw [if_neg hnand]
          have hc : contribOf scores t (k :: ks) = contribOf scores t ks := by
            simp [contribOf, List.filterMap_cons, hl, hv]
          rw [hc]
          exact ih a l
  have h0 := go d.keywords 0 []
  simpa [destinationTally] using h0

theorem passTwo_eq (scores : ScoreMap) (t : Nat) (ds : List Destination) :
    passTwo scores t ds
      = ds.filterMap (fun d =>
          if 0 < entityTotal scores t d then some (resOf scores t d) else none) := by
  induction ds with
  | nil => rfl
  | cons d ds ih =>
    rw [passTwo, List.filterMap_cons, tally_eq]
    by_cases h : 0 < entityTotal scores t d
    · have h' : 0 < ((contribOf scores t d.keywords).map Prod.snd).sum := h
      rw [if_pos h', if_pos h, ih]
      rfl
    · have h' : ¬ 0 < ((contribOf scores t d.keywords).map Prod.snd).sum := h
      rw [if_neg h', if_neg h, ih]

theorem entityTotal_nil_keywords (scores : ScoreMap) (t : Nat) (d : Destination)
    (h : d.keywords = []) : entityTotal scores t d = 0 := by
  simp [entityTotal, contribOf, h]

theorem passOne_eq (scores : ScoreMap) (t : Nat) (ds : List Destination) :
    passOne scores t ds
      = ds.filterMap (fun d =>
          if 0 < entityTotal scores t d then some (resOf scores t d) else none) := by
  induction ds with
  | nil => rfl
  | cons d ds ih =>
    rw [passOne, List.filterMap_cons]
    by_cases he : d.keywords.isEmpty
    · have hnil : d.keywords = [] := List.isEmpty_iff.mp he
      have h0 : entityTotal scores t d = 0 := entityTotal_nil_keywords scores t d hnil
      rw [if_pos he, h0, ih]
      simp
    · rw [if_neg he, tally_eq]
      by_cases h : 0 < entityTotal scores t d
      · have h' : 0 < ((contribOf scores t d.keywords).map Prod.snd).sum := h
        rw [if_pos h', if_pos h, ih]
        rfl
      · have h' : ¬ 0 < ((contribOf scores t d.keywords).map Prod.snd).sum := h
        rw [if_neg h', if_neg h, ih]

theorem passOne_eq_passTwo (scores : ScoreMap) (t : Nat) (ds : List Destination) :
    passOne scores t ds = passTwo scores t ds := by
  rw [passOne_eq, passTwo_eq]

theorem fmd_eq_active (scores : ScoreMap) (ds : List Destination) :
    findMatchingDestinations scores ds
      = List.insertionSort resGe (passTwo scores (activeThreshold scores ds) ds) := by
  simp only [findMatchingDestinations, activeThreshold]
  by_cases h : (passOne scores 5 ds).isEmpty = true
  · rw [if_pos h, if_pos h]
  · rw [if_neg h, if_neg h, passOne_eq_passTwo]

theorem contrib_mem (scores : ScoreMap) (t : Nat) (ks : List String) (p : String × Nat)
    (hp : p ∈ contribOf scores t ks) :
    p.1 ∈ ks ∧ lookupScore scores p.1 = some p.2 ∧ t < p.2 := by
  obtain ⟨k, hk, hfk⟩ := List.mem_filterMap.mp hp
  cases hl : lookupScore scores k with
  | none => simp [hl] at hfk
  | some v =>
    simp only [hl] at hfk
    by_cases hv : t < v
    · rw [if_pos hv] at hfk
      obtain rfl := Option.some.inj hfk
      exact ⟨hk, hl, hv⟩
    · rw [if_neg hv] at hfk
      cases hfk

theorem contrib_ne_nil (scores : ScoreMap) (t : Nat) (ks : List String)
    (h : 0 < ((contribOf scores t ks).map Prod.snd).sum) : contribOf scores t ks ≠ [] := by
  intro hnil
  rw [hnil] at h
  simp at h

theorem mem_passTwo_iff (scores : ScoreMap) (t : Nat) (ds : List Destination)
    (r : MatchResult) :
    r ∈ passTwo scores t ds
      ↔ ∃ d, d ∈ ds ∧ 0 < entityTotal scores t d ∧ r = resOf scores t d := by
  rw [passTwo_eq, List.mem_filterMap]
  constructor
  · rintro ⟨d, hd, hf⟩
    by_cases h : 0 < entityTotal scores t d
    · rw [if_pos h] at hf
      exact ⟨d, hd, h, (Option.some.inj hf).symm⟩
    · rw [if_neg h] at hf
      cases hf
  · rintro ⟨d, hd, h, rfl⟩
    exact ⟨d, hd, by rw [if_pos h]⟩

theorem resOf_id (scores : ScoreMap) (t : Nat) (d : Destination) :
    (resOf scores t d).id = d.id := rfl

theorem resOf_score (scores : ScoreMap) (t : Nat) (d : Destination) :
    (resOf scores t d).score = entityTotal scores t d := rfl

theorem passTwo_ids (scores : ScoreMap) (t : Nat) (ds : List Destination) :
    ((passTwo scores t ds).map MatchResult.id).Sublist (ds.map Destination.id) := by
  rw [passTwo_eq]
  induction ds with
  | nil => simp
  | cons d ds ih =>
    rw [List.filterMap_cons]
    by_cases h : 0 < entityTotal scores t d
    · rw [if_pos h]
      simp only [List.map_cons]
      exact List.Sublist.cons₂ _ ih
    · rw [if_neg h]
      simp only [List.map_cons]
      exact List.Sublist.cons _ ih

theorem passTwo_unique (scores : ScoreMap) (t : Nat) (ds : List Destination)
    (hnodup : (ds.map Destination.id).Nodup) (d : Destination) (hd : d ∈ ds)
    (r : MatchResult) (hr : r ∈ passTwo scores t ds) (hid : r.id = d.id) :
    r = resOf scores t d ∧ 0 < entityTotal scores t d := by
  obtain ⟨e, he, hpos, rfl⟩ := (mem_passTwo_iff scores t ds r).mp hr
  have hed : e = d := List.inj_on_of_nodup_map hnodup he hd hid
  subst hed
  exact ⟨rfl, hpos⟩

theorem mem_fmd_iff (scores : ScoreMap) (ds : List Destination) (r : MatchResult) :
    r ∈ findMatchingDestinations scores ds
      ↔ r ∈ passTwo scores (activeThreshold scores ds) ds := by
  rw [fmd_eq_active]
  exact (List.perm_insertionSort resGe _).mem_iff

theorem fmd_ids_nodup (scores : ScoreMap) (ds : List Destination)
    (hnodup : (ds.map Destination.id).Nodup) :
    ((findMatchingDestinations scores ds).map MatchResult.id).Nodup := by
  rw [fmd_eq_active]
  have hperm := (List.perm_insertionSort resGe
    (passTwo scores (activeThreshold scores ds) ds)).map MatchResult.id
  exact hperm.nodup_iff.mpr
    (List.Nodup.sublist (passTwo_ids scores (activeThreshold scores ds) ds) hnodup)

theorem fmd_sorted (scores : ScoreMap) (ds : List Destination) :
    (findMatchingDestinations scores ds).Sorted resGe := by
  rw [fmd_eq_active]
  exact List.sorted_insertionSort resGe _

/-! ### Effect of raising one score -/

theorem contrib_setScore_not_mem (scores : ScoreMap) (k : String) (v' : Nat) (t : Nat)
    (ks : List String) (hk : k ∉ ks) :
    contribOf (setScore scores k v') t ks = contribOf scores t ks := by
  induction ks with
  | nil => rfl
  | cons j ks ih =>
    have hjk : ¬ k = j := fun h => hk (by rw [h]; exact List.mem_cons_self j ks)
    have hl : lookupScore (setScore scores k v') j = lookupScore scores j := by
      rw [lookup_setScore, if_neg hjk]
    have hk' : k ∉ ks := fun h => hk (List.mem_cons_of_mem _ h)
    simp only [contribOf, List.filterMap_cons] at ih ⊢
    rw [hl, ih hk']

theorem contrib_sum_setScore_ge (scores : ScoreMap) (k : String) (v v' : Nat) (t : Nat)
    (hv : lookupScore scores k = some v) (hvt : t < v) (hvv' : v ≤ v') :
    ∀ ks : List String,
      ((contribOf scores t ks).map Prod.snd).sum
        ≤ ((contribOf (setScore scores k v') t ks).map Prod.snd).sum := by
  intro ks
  induction ks with
  | nil => exact Nat.le_refl 0
  | cons j ks ih =>
    simp only [contribOf, List.filterMap_cons] at ih ⊢
    by_cases hj : j = k
    · subst hj
      have hset : lookupScore (setScore scores j v') j = some v' := by
        rw [lookup_setScore, if_pos rfl]
      simp only [hv, hset]
      rw [if_pos hvt, if_pos (Nat.lt_of_lt_of_le hvt hvv')]
      simp only [List.map_cons, List.sum_cons]
      exact Nat.add_le_add hvv' ih
    · have hl : lookupScore (setScore scores k v') j = lookupScore scores j := by
        rw [lookup_setScore, if_neg (fun h => hj h.symm)]
      rw [hl]
      cases hlj : lookupScore scores j with
      | none => simpa [hlj] using ih
      | some w =>
        simp only [hlj]
        by_cases hw : t < w
        · rw [if_pos hw]
          simp only [List.map_cons, List.sum_cons]
          exact Nat.add_le_add_left ih w
        · rw [if_neg hw]
          exact ih

theorem entityTotal_setScore_ge (scores : ScoreMap) (k : String) (v v' : Nat) (t : Nat)
    (hv : lookupScore scores k = some v) (hvt : t < v) (hvv' : v ≤ v')
    (d : Destination) :
    entityTotal scores t d ≤ entityTotal (setScore scores k v') t d :=
  contrib_sum_setScore_ge scores k v v' t hv hvt hvv' d.keywords

theorem resOf_setScore_eq (scores : ScoreMap) (k : String) (v' : Nat) (t : Nat)
    (d : Destination) (hk : k ∉ d.keywords) :
    resOf (setScore scores k v') t d = resOf scores t d := by
  unfold resOf mkResult entityTotal
  rw [contrib_setScore_not_mem scores k v' t d.keywords hk]

theorem entityTotal_setScore_eq (scores : ScoreMap) (k : String) (v' : Nat) (t : Nat)
    (d : Destination) (hk : k ∉ d.keywords) :
    entityTotal (setScore scores k v') t d = entityTotal scores t d := by
  unfold entityTotal
  rw [contrib_setScore_not_mem scores k v' t d.keywords hk]

/-! ### Order lemmas for stable descending sorts -/

theorem sorted_pair_of_gt (x y : MatchResult) :
    ∀ l : List MatchResult, l.Sorted resGe → x ∈ l → y ∈ l → y.score < x.score →
      [x, y].Sublist l := by
  intro l
  induction l with
  | nil => intro _ hx; cases hx
  | cons z zs ih =>
    intro hs hx hy hxy
    rcases List.mem_cons.mp hx with rfl | hx'
    · rcases List.mem_cons.mp hy with hyz | hy'
      · rw [hyz] at hxy
        exact absurd hxy (Nat.lt_irrefl _)
      · exact List.Sublist.cons₂ x (List.singleton_sublist.mpr hy')
    · rcases List.mem_cons.mp hy with rfl | hy'
      · have hzx : resGe y x := List.rel_of_sorted_cons hs x hx'
        exact absurd (Nat.lt_of_lt_of_le hxy hzx) (Nat.lt_irrefl _)
      · exact List.Sublist.cons z (ih hs.of_cons hx' hy' hxy)

theorem sublist_pair_of_mem {α : Type} (a b : α) :
    ∀ l : List α, a ∈ l → b ∈ l → a ≠ b → [a, b].Sublist l ∨ [b, a].Sublist l := by
  intro l
  induction l with
  | nil => intro ha; cases ha
  | cons z zs ih =>
    intro ha hb hab
    rcases List.mem_cons.mp ha with rfl | ha'
    · rcases List.mem_cons.mp hb with rfl | hb'
      · exact absurd rfl hab
      · exact Or.inl (List.Sublist.cons₂ _ (List.singleton_sublist.mpr hb'))
    · rcases List.mem_cons.mp hb with rfl | hb'
      · exact Or.inr (List.Sublist.cons₂ _ (List.singleton_sublist.mpr ha'))
      · rcases ih ha' hb' hab with h | h
        · exact Or.inl (List.Sublist.cons _ h)
        · exact Or.inr (List.Sublist.cons _ h)

theorem pair_sublist_antisymm {α : Type} (x y : α) :
    ∀ l : List α, l.Nodup → [x, y].Sublist l → [y, x].Sublist l → x = y := by
  intro l
  induction l with
  | nil =>
    intro _ h
    rw [List.sublist_nil] at h
    cases h
  | cons z zs ih =>
    intro hnd h1 h2
    cases h1 with
    | cons _ h1' =>
      cases h2 with
      | cons _ h2' => exact ih (List.nodup_cons.mp hnd).2 h1' h2'
      | cons₂ _ h2' =>
        have hz : y ∈ zs := h1'.subset (by simp)
        exact absurd hz (List.nodup_cons.mp hnd).1
    | cons₂ _ h1' =>
      cases h2 with
      | cons _ h2' =>
        have hz : x ∈ zs := h2'.subset (by simp)
        exact absurd hz (List.nodup_cons.mp hnd).1
      | cons₂ _ h2' => rfl

/-! ### Claim theorems -/

/-- C1 counterexample: when the external collaborator's response yields the
parseable JSON object `{}`, `analyzeQueryWithClaude` returns it as-is, so the
resulting ScoreMap omits the vocabulary keyword "beach" entirely, refuting the
claim that every query's score operation covers the whole vocabulary. -/
theorem scorer_coverage_cex :
    ("beach") ∈ PREDEFINED_KEYWORDS
    ∧ lookupScore (analyzeQueryWithClaude ("beach trip") (some [])) ("beach") = none :=
  ⟨by decide, rfl⟩

/-- C1 (amended): on every failure path the score operation returns the
fallback ScoreMap, which contains every vocabulary keyword with a value in
[1, 10] (hence in [0, 10]); when a JSON object is successfully extracted from
the collaborator's response it is returned as-is, without any coverage or
range validation. -/
theorem scorer_coverage_amended (query k : String) (hk : k ∈ PREDEFINED_KEYWORDS) :
    (∀ m : ScoreMap, analyzeQueryWithClaude query (some m) = m)
    ∧ ∃ v, lookupScore (analyzeQueryWithClaude query none) k = some v
        ∧ 1 ≤ v ∧ v ≤ 10 :=
  ⟨fun _ => rfl, fallback_covers query k hk⟩

theorem scorer_coverage_amended_check :
    analyzeQueryWithClaude ("hiking trip") (some [(("beach"), 5)]) = [(("beach"), 5)]
    ∧ ∃ v, lookupScore (analyzeQueryWithClaude ("hiking trip") none) ("beach") = some v
        ∧ 1 ≤ v ∧ v ≤ 10 :=
  ⟨(scorer_coverage_amended ("hiking trip") ("beach") (by decide)).1 _,
   (scorer_coverage_amended ("hiking trip") ("beach") (by decide)).2⟩

/-- C4: for every query, the fallback scorer's base step assigns each
vocabulary keyword the score 9 if the keyword occurs as a substring of the
lower-cased query, else 7 if the keyword with its last two characters removed
occurs as a substring, else 1. -/
theorem fallback_base_scores (query k : String) (hk : k ∈ PREDEFINED_KEYWORDS) :
    lookupScore (baseScores (toLowerCase query)) k
      = some (if jsIncludes (toLowerCase query) k then 9
          else if jsIncludes (toLowerCase query) (dropLast2 k) then 7
          else 1) :=
  lookup_map_pair _ PREDEFINED_KEYWORDS k hk

theorem fallback_base_scores_check :
    lookupScore (baseScores (toLowerCase ("Sunny BEACHES holiday"))) ("beach") = some 9 := by
  rw [fallback_base_scores ("Sunny BEACHES holiday") ("beach") (by decide)]
  decide

/-- C5: every score produced by the fallback scorer is at most 10 even after
the cumulative phrase bonuses, and no lower clamp is needed because every
score is at least 1. -/
theorem fallback_score_bounds (query k : String) (v : Nat)
    (hv : lookupScore (fallbackScoring query) k = some v) : v ≤ 10 ∧ 1 ≤ v :=
  ⟨(fallback_bounds query k v hv).2, (fallback_bounds query k v hv).1⟩

theorem fallback_score_bounds_check :
    lookupScore (fallbackScoring ("beach resort holiday")) ("beach") = some 10
    ∧ (10 ≤ 10 ∧ 1 ≤ (10 : Nat)) :=
  ⟨by decide, fallback_score_bounds ("beach resort holiday") ("beach") 10 (by decide)⟩

/-- C6: the phrase-bonus step adjusts only keywords the base scoring step
included: every keyword referenced by a bonus rule is in the fixed vocabulary
(so the skip case of a missing keyword never arises), the fallback ScoreMap's
keys are exactly the vocabulary, and any key outside the vocabulary is absent
from it. -/
theorem fallback_keys_safety (query : String) :
    (fallbackScoring query).map Prod.fst = PREDEFINED_KEYWORDS
    ∧ (∀ k, k ∈ bonusKeywords → k ∈ PREDEFINED_KEYWORDS)
    ∧ (∀ k v, lookupScore (fallbackScoring query) k = some v →
        k ∈ PREDEFINED_KEYWORDS) := by
  refine ⟨fallback_fst query, by decide, ?_⟩
  intro k v hv
  have hmem := mem_keys_of_lookup_some _ _ _ hv
  rwa [fallback_fst] at hmem

theorem fallback_keys_safety_check :
    (fallbackScoring ("holiday museum")).map Prod.fst = PREDEFINED_KEYWORDS
    ∧ ("cultural") ∈ PREDEFINED_KEYWORDS :=
  ⟨(fallback_keys_safety ("holiday museum")).1,
   (fallback_keys_safety ("holiday museum")).2.1 ("cultural") (by decide)⟩

/-- C9: during catalog load, an entity whose keyword field fails to parse as
JSON gets an empty keyword list, and the failure never aborts the load: the
output has one entry per raw record, and every record is transformed
independently with its identifier preserved. -/
theorem catalog_load_recovery (parse : String → Option (List String))
    (raws : List RawDest) (i : Nat) (raw : RawDest)
    (hra : raws[i]? = some raw) (hkw : raw.Keywords ≠ "")
    (hfail : parse raw.Keywords = none) :
    (loadDestinations parse raws).length = raws.length
    ∧ (loadDestinations parse raws)[i]? = some (loadDestination parse raw)
    ∧ (loadDestination parse raw).keywords = []
    ∧ ∀ (j : Nat) (rawj : RawDest), raws[j]? = some rawj →
        (loadDestinations parse raws)[j]? = some (loadDestination parse rawj)
        ∧ (loadDestination parse rawj).id = rawj.DestinationID := by
  refine ⟨by simp [loadDestinations], ?_, ?_, ?_⟩
  · rw [loadDestinations, List.getElem?_map, hra]
    rfl
  · simp [loadDestination, hkw, hfail]
  · intro j rawj hj
    exact ⟨by rw [loadDestinations, List.getElem?_map, hj]; rfl, rfl⟩

theorem passTwo_nil_of_bounded (scores : ScoreMap) (t : Nat) (ds : List Destination)
    (h : ∀ k v, lookupScore scores k = some v → ¬ t < v) :
    passTwo scores t ds = [] := by
  rw [passTwo_eq, List.filterMap_eq_nil_iff]
  intro d _
  have hc : contribOf scores t d.keywords = [] := by
    rw [contribOf, List.filterMap_eq_nil_iff]
    intro k _
    cases hl : lookupScore scores k with
    | none => simp [hl]
    | some v =>
      simp only [hl]
      rw [if_neg (h k v hl)]
  have h0 : entityTotal scores t d = 0 := by simp [entityTotal, hc]
  rw [h0]
  simp

/-- C3: for every ScoreMap, catalog and threshold the per-entity pass is
exactly the declarative description: each entity's total is the sum of the
scores of precisely those of its keywords scoring strictly above the threshold
(the JS truthiness guard is redundant over these scores), entities with zero
total are excluded, each result's matched-keyword list is the descending
stable sort of all contributing pairs truncated to at most three, and the
total still sums over all contributing keywords, not just the retained three. -/
theorem per_entity_ranking (scores : ScoreMap) (t : Nat) (ds : List Destination) :
    passOne scores t ds
      = ds.filterMap (fun d =>
          if 0 < entityTotal scores t d then some (resOf scores t d) else none)
    ∧ (∀ r, r ∈ passOne scores t ds →
        r.matchedKeywords.Sorted pairGe ∧ r.matchedKeywords.length ≤ 3)
    ∧ (∀ d, d ∈ ds → 0 < entityTotal scores t d →
        resOf scores t d ∈ passOne scores t ds
        ∧ (resOf scores t d).score = entityTotal scores t d
        ∧ (resOf scores t d).matchedKeywords
            = (List.insertionSort pairGe (contribOf scores t d.keywords)).take 3) := by
  refine ⟨passOne_eq scores t ds, ?_, ?_⟩
  · intro r hr
    rw [passOne_eq_passTwo] at hr
    obtain ⟨d, _, _, rfl⟩ := (mem_passTwo_iff scores t ds r).mp hr
    constructor
    · exact List.Pairwise.sublist (List.take_sublist 3 _)
        (List.sorted_insertionSort pairGe (contribOf scores t d.keywords))
    · have hmk : (resOf scores t d).matchedKeywords
          = (List.insertionSort pairGe (contribOf scores t d.keywords)).take 3 := rfl
      rw [hmk, List.length_take]
      omega
  · intro d hd hpos
    refine ⟨?_, rfl, rfl⟩
    rw [passOne_eq_passTwo]
    exact (mem_passTwo_iff scores t ds _).mpr ⟨d, hd, hpos, rfl⟩

theorem per_entity_ranking_check :
    (resOf demoScores 5 demoDestA).score = entityTotal demoScores 5 demoDestA
    ∧ resOf demoScores 5 demoDestA ∈ passOne demoScores 5 demoDests :=
  ⟨((per_entity_ranking demoScores 5 demoDests).2.2 demoDestA (by decide) (by decide)).2.1,
   ((per_entity_ranking demoScores 5 demoDests).2.2 demoDestA (by decide) (by decide)).1⟩

/-- C2: the ranker runs one pass at threshold 5 and, exactly when that pass is
empty, reruns the identical per-entity procedure over the full catalog at
threshold 3 and returns that result instead, with no further relaxation (a
ScoreMap with every score at most 3 yields an empty final result); in
particular a ScoreMap whose scores are all exactly 4, with some catalog entity
carrying a keyword scored 4, makes the first pass empty and the final result
non-empty. -/
theorem two_pass_policy (scores : ScoreMap) (ds : List Destination) :
    (passOne scores 5 ds = [] →
      findMatchingDestinations scores ds
        = List.insertionSort resGe (passTwo scores 3 ds))
    ∧ (passOne scores 5 ds ≠ [] →
      findMatchingDestinations scores ds
        = List.insertionSort resGe (passOne scores 5 ds))
    ∧ (∀ t, passTwo scores t ds = passOne scores t ds)
    ∧ ((∀ k v, lookupScore scores k = some v → v ≤ 3) →
        findMatchingDestinations scores ds = [])
    ∧ ((∀ k v, lookupScore scores k = some v → v = 4) →
        (∃ d, d ∈ ds ∧ ∃ k, k ∈ d.keywords ∧ lookupScore scores k = some 4) →
        passOne scores 5 ds = [] ∧ findMatchingDestinations scores ds ≠ []) := by
  have hcase1 : passOne scores 5 ds = [] →
      findMatchingDestinations scores ds
        = List.insertionSort resGe (passTwo scores 3 ds) := by
    intro h
    have hE : (passOne scores 5 ds).isEmpty = true := List.isEmpty_iff.mpr h
    simp only [findMatchingDestinations, hE, if_true]
  refine ⟨hcase1, ?_, ?_, ?_, ?_⟩
  · intro h
    have hE : ¬ (passOne scores 5 ds).isEmpty = true :=
      fun hh => h (List.isEmpty_iff.mp hh)
    simp only [findMatchingDestinations, if_neg hE]
  · intro t
    exact (passOne_eq_passTwo scores t ds).symm
  · intro hall
    have h5 : passOne scores 5 ds = [] := by
      rw [passOne_eq_passTwo]
      exact passTwo_nil_of_bounded scores 5 ds
        (fun k v hv => by have := hall k v hv; omega)
    have h3 : passTwo scores 3 ds = [] :=
      passTwo_nil_of_bounded scores 3 ds
        (fun k v hv => by have := hall k v hv; omega)
    rw [hcase1 h5, h3]
    rfl
  · intro hall hex
    have h5 : passOne scores 5 ds = [] := by
      rw [passOne_eq_passTwo]
      exact passTwo_nil_of_bounded scores 5 ds
        (fun k v hv => by have := hall k v hv; omega)
    refine ⟨h5, ?_⟩
    obtain ⟨d, hd, k, hk, h4⟩ := hex
    have hmem : (k, 4) ∈ contribOf scores 3 d.keywords := by
      refine List.mem_filterMap.mpr ⟨k, hk, ?_⟩
      simp [h4]
    have hsum : 4 ≤ ((contribOf scores 3 d.keywords).map Prod.snd).sum := by
      refine List.single_le_sum (fun x _ => Nat.zero_le x) 4 ?_
      exact List.mem_map.mpr ⟨(k, 4), hmem, rfl⟩
    have hpos : 0 < entityTotal scores 3 d := by
      show 0 < ((contribOf scores 3 d.keywords).map Prod.snd).sum
      omega
    have hres : resOf scores 3 d ∈ passTwo scores 3 ds :=
      (mem_passTwo_iff scores 3 ds _).mpr ⟨d, hd, hpos, rfl⟩
    intro hnil
    rw [hcase1 h5] at hnil
    have h0 := (List.perm_insertionSort resGe (passTwo scores 3 ds)).symm
    rw [hnil] at h0
    rw [h0.eq_nil] at hres
    cases hres

theorem two_pass_policy_check :
    passOne [(("beach"), 4)] 5 demoDests = []
    ∧ findMatchingDestinations [(("beach"), 4)] demoDests ≠ [] :=
  (two_pass_policy [(("beach"), 4)] demoDests).2.2.2.2
    (by
      intro k v h
      by_cases hb : ("beach") = k
      · simp only [lookupScore, if_pos hb] at h
        exact (Option.some.inj h).symm
      · simp only [lookupScore, if_neg hb] at h
        cases h)
    ⟨demoDestA, by decide, ("beach"), by decide, by decide⟩

/-- C10: every MatchResult the ranker returns, from either pass, has a
strictly positive total score and a matched-keyword list of between one and
three pairs, each scoring strictly above the threshold of the pass that
produced it. -/
theorem match_result_invariant (scores : ScoreMap) (ds : List Destination)
    (r : MatchResult) (hr : r ∈ findMatchingDestinations scores ds) :
    0 < r.score ∧ 1 ≤ r.matchedKeywords.length ∧ r.matchedKeywords.length ≤ 3
    ∧ ∀ p, p ∈ r.matchedKeywords → activeThreshold scores ds < p.2 := by
  rw [mem_fmd_iff] at hr
  obtain ⟨d, hd, hpos, rfl⟩ :=
    (mem_passTwo_iff scores (activeThreshold scores ds) ds r).mp hr
  have hmk : (resOf scores (activeThreshold scores ds) d).matchedKeywords
      = (List.insertionSort pairGe
          (contribOf scores (activeThreshold scores ds) d.keywords)).take 3 := rfl
  refine ⟨hpos, ?_, ?_, ?_⟩
  · have hne : contribOf scores (activeThreshold scores ds) d.keywords ≠ [] :=
      contrib_ne_nil _ _ _ hpos
    have hlen := List.length_pos.mpr hne
    rw [hmk, List.length_take, List.length_insertionSort]
    omega
  · rw [hmk, List.length_take]
    omega
  · intro p hp
    rw [hmk] at hp
    have h1 : p ∈ List.insertionSort pairGe
        (contribOf scores (activeThreshold scores ds) d.keywords) :=
      (List.take_sublist 3 _).subset hp
    have h2 : p ∈ contribOf scores (activeThreshold scores ds) d.keywords :=
      (List.perm_insertionSort pairGe _).subset h1
    exact (contrib_mem _ _ _ _ h2).2.2

theorem match_result_invariant_check :
    0 < (resOf demoScores 5 demoDestA).score
    ∧ 1 ≤ (resOf demoScores 5 demoDestA).matchedKeywords.length
    ∧ (resOf demoScores 5 demoDestA).matchedKeywords.length ≤ 3
    ∧ activeThreshold demoScores demoDests < 7 :=
  ⟨(match_result_invariant demoScores demoDests (resOf demoScores 5 demoDestA)
      (by decide)).1,
   (match_result_invariant demoScores demoDests (resOf demoScores 5 demoDestA)
      (by decide)).2.1,
   (match_result_invariant demoScores demoDests (resOf demoScores 5 demoDestA)
      (by decide)).2.2.1,
   (match_result_invariant demoScores demoDests (resOf demoScores 5 demoDestA)
      (by decide)).2.2.2 ((("beach"), 7)) (by decide)⟩

/-- C7: for every ScoreMap and catalog, the ranker's output is sorted by
total score descending, and any two catalog entities with equal (positive)
totals under the active threshold appear in the output in their catalog
order — ties are stable. -/
theorem ranking_sorted_stable (scores : ScoreMap) (ds : List Destination) :
    (findMatchingDestinations scores ds).Sorted resGe
    ∧ ∀ d d' : Destination, [d, d'].Sublist ds →
        entityTotal scores (activeThreshold scores ds) d
          = entityTotal scores (activeThreshold scores ds) d' →
        0 < entityTotal scores (activeThreshold scores ds) d →
        beforeIn (findMatchingDestinations scores ds) d.id d'.id := by
  refine ⟨fmd_sorted scores ds, ?_⟩
  intro d d' hdd heq hpos
  have hpos' : 0 < entityTotal scores (activeThreshold scores ds) d' := heq ▸ hpos
  have hfm : List.filterMap
      (fun e => if 0 < entityTotal scores (activeThreshold scores ds) e
          then some (resOf scores (activeThreshold scores ds) e) else none)
      [d, d']
      = [resOf scores (activeThreshold scores ds) d,
         resOf scores (activeThreshold scores ds) d'] := by
    rw [List.filterMap_cons, List.filterMap_cons, if_pos hpos, if_pos hpos']
    rfl
  have hpair : [resOf scores (activeThreshold scores ds) d,
      resOf scores (activeThreshold scores ds) d'].Sublist
        (passTwo scores (activeThreshold scores ds) ds) := by
    rw [passTwo_eq]
    have hf := List.Sublist.filterMap
      (fun e => if 0 < entityTotal scores (activeThreshold scores ds) e
          then some (resOf scores (activeThreshold scores ds) e) else none) hdd
    rwa [hfm] at hf
  have hge : resGe (resOf scores (activeThreshold scores ds) d)
      (resOf scores (activeThreshold scores ds) d') := by
    show (resOf scores (activeThreshold scores ds) d').score
      ≤ (resOf scores (activeThreshold scores ds) d).score
    rw [resOf_score, resOf_score, heq]
  have hfinal := List.pair_sublist_insertionSort hge hpair
  rw [fmd_eq_active]
  exact ⟨resOf scores (activeThreshold scores ds) d,
    resOf scores (activeThreshold scores ds) d', rfl, rfl, hfinal⟩

theorem ranking_sorted_stable_check :
    (findMatchingDestinations [(("island"), 7)] [demoDestB, demoDestC]).Sorted resGe
    ∧ beforeIn (findMatchingDestinations [(("island"), 7)] [demoDestB, demoDestC])
        ("B") ("C") :=
  ⟨(ranking_sorted_stable [(("island"), 7)] [demoDestB, demoDestC]).1,
   (ranking_sorted_stable [(("island"), 7)] [demoDestB, demoDestC]).2
     demoDestB demoDestC (List.Sublist.refl _) (by decide) (by decide)⟩

/-- C8: ranking is monotonic: raising the score of one of an entity's matched
keywords (it stays above the active threshold, and the pass selection does not
change) never moves that entity below an entity whose scores are unchanged
(one not carrying the raised keyword): if the first entity preceded the second
in the output, it still does after the raise. -/
theorem ranking_monotone (scores : ScoreMap) (ds : List Destination)
    (d d' : Destination) (k : String) (v v' : Nat)
    (hnodup : (ds.map Destination.id).Nodup)
    (hd : d ∈ ds) (hd' : d' ∈ ds)
    (hk : k ∈ d.keywords) (hk' : k ∉ d'.keywords)
    (hv : lookupScore scores k = some v)
    (hvt : activeThreshold scores ds < v) (hvv' : v ≤ v')
    (hpass : (passOne (setScore scores k v') 5 ds).isEmpty
           = (passOne scores 5 ds).isEmpty)
    (hbef : beforeIn (findMatchingDestinations scores ds) d.id d'.id) :
    beforeIn (findMatchingDestinations (setScore scores k v') ds) d.id d'.id := by
  have hact' : activeThreshold (setScore scores k v') ds = activeThreshold scores ds := by
    unfold activeThreshold
    rw [hpass]
  rw [fmd_eq_active] at hbef
  obtain ⟨ra, rb, hida, hidb, hsub⟩ := hbef
  have hra_pass : ra ∈ passTwo scores (activeThreshold scores ds) ds :=
    (List.perm_insertionSort resGe _).subset (hsub.subset (by simp))
  have hrb_pass : rb ∈ passTwo scores (activeThreshold scores ds) ds :=
    (List.perm_insertionSort resGe _).subset (hsub.subset (by simp))
  obtain ⟨hraeq, hdpos⟩ :=
    passTwo_unique scores (activeThreshold scores ds) ds hnodup d hd ra hra_pass hida
  obtain ⟨hrbeq, hd'pos⟩ :=
    passTwo_unique scores (activeThreshold scores ds) ds hnodup d' hd' rb hrb_pass hidb
  have hSS' : entityTotal scores (activeThreshold scores ds) d'
      ≤ entityTotal scores (activeThreshold scores ds) d := by
    have hpw : List.Pairwise resGe (List.insertionSort resGe
        (passTwo scores (activeThreshold scores ds) ds)) :=
      List.sorted_insertionSort resGe _
    have hpr : resGe ra rb := List.pairwise_pair.mp (List.Pairwise.sublist hsub hpw)
    rw [hraeq, hrbeq] at hpr
    exact hpr
  have hT : entityTotal scores (activeThreshold scores ds) d
      ≤ entityTotal (setScore scores k v') (activeThreshold scores ds) d :=
    entityTotal_setScore_ge scores k v v' (activeThreshold scores ds) hv hvt hvv' d
  have hd'tot : entityTotal (setScore scores k v') (activeThreshold scores ds) d'
      = entityTotal scores (activeThreshold scores ds) d' :=
    entityTotal_setScore_eq scores k v' (activeThreshold scores ds) d' hk'
  have hdpos' : 0 < entityTotal (setScore scores k v') (activeThreshold scores ds) d :=
    Nat.lt_of_lt_of_le hdpos hT
  have hd'pos' : 0 < entityTotal (setScore scores k v') (activeThreshold scores ds) d' := by
    rw [hd'tot]
    exact hd'pos
  rw [fmd_eq_active, hact']
  rcases Nat.lt_or_ge (entityTotal scores (activeThreshold scores ds) d')
      (entityTotal scores (activeThreshold scores ds) d) with hlt | hge
  · have hx : resOf (setScore scores k v') (activeThreshold scores ds) d
        ∈ List.insertionSort resGe
            (passTwo (setScore scores k v') (activeThreshold scores ds) ds) := by
      rw [(List.perm_insertionSort resGe _).mem_iff]
      exact (mem_passTwo_iff _ _ _ _).mpr ⟨d, hd, hdpos', rfl⟩
    have hy : resOf (setScore scores k v') (activeThreshold scores ds) d'
        ∈ List.insertionSort resGe
            (passTwo (setScore scores k v') (activeThreshold scores ds) ds) := by
      rw [(List.perm_insertionSort resGe _).mem_iff]
      exact (mem_passTwo_iff _ _ _ _).mpr ⟨d', hd', hd'pos', rfl⟩
    have hscore : (resOf (setScore scores k v') (activeThreshold scores ds) d').score
        < (resOf (setScore scores k v') (activeThreshold scores ds) d).score := by
      rw [resOf_score, resOf_score, hd'tot]
      exact Nat.lt_of_lt_of_le hlt hT
    have hpair := sorted_pair_of_gt _ _ _
      (List.sorted_insertionSort resGe _) hx hy hscore
    exact ⟨_, _, rfl, rfl, hpair⟩
  · have heqtot : entityTotal scores (activeThreshold scores ds) d
        = entityTotal scores (activeThreshold scores ds) d' :=
      Nat.le_antisymm hge hSS'
    have hne : d ≠ d' := fun h => hk' (h ▸ hk)
    have hdd : [d, d'].Sublist ds := by
      rcases sublist_pair_of_mem d d' ds hd hd' hne with h | h
      · exact h
      · exfalso
        have hfm : List.filterMap
            (fun e => if 0 < entityTotal scores (activeThreshold scores ds) e
                then some (resOf scores (activeThreshold scores ds) e) else none)
            [d', d]
            = [resOf scores (activeThreshold scores ds) d',
               resOf scores (activeThreshold scores ds) d] := by
          rw [List.filterMap_cons, List.filterMap_cons, if_pos hd'pos, if_pos hdpos]
          rfl
        have hpair2 : [resOf scores (activeThreshold scores ds) d',
            resOf scores (activeThreshold scores ds) d].Sublist
              (passTwo scores (activeThreshold scores ds) ds) := by
          rw [passTwo_eq]
          have hf := List.Sublist.filterMap
            (fun e => if 0 < entityTotal scores (activeThreshold scores ds) e
                then some (resOf scores (activeThreshold scores ds) e) else none) h
          rwa [hfm] at hf
        have hge2 : resGe (resOf scores (activeThreshold scores ds) d')
            (resOf scores (activeThreshold scores ds) d) := by
          show (resOf scores (activeThreshold scores ds) d).score
            ≤ (resOf scores (activeThreshold scores ds) d').score
          rw [resOf_score, resOf_score, heqtot]
        have hsorted2 := List.pair_sublist_insertionSort hge2 hpair2
        rw [hraeq] at hsub
        rw [hrbeq] at hsub
        have hnodup_out : (List.insertionSort resGe
            (passTwo scores (activeThreshold scores ds) ds)).Nodup := by
          have hids : ((List.insertionSort resGe
              (passTwo scores (activeThreshold scores ds) ds)).map MatchResult.id).Nodup := by
            have hperm := (List.perm_insertionSort resGe
              (passTwo scores (activeThreshold scores ds) ds)).map MatchResult.id
            exact hperm.nodup_iff.mpr
              (List.Nodup.sublist (passTwo_ids scores (activeThreshold scores ds) ds) hnodup)
          exact List.Nodup.of_map _ hids
        have heqres := pair_sublist_antisymm _ _ _ hnodup_out hsub hsorted2
        have hideq : d.id = d'.id := by
          have hcr := congrArg MatchResult.id heqres
          rwa [resOf_id, resOf_id] at hcr
        exact hne (List.inj_on_of_nodup_map hnodup hd hd' hideq)
    have hfm' : List.filterMap
        (fun e => if 0 < entityTotal (setScore scores k v') (activeThreshold scores ds) e
            then some (resOf (setScore scores k v') (activeThreshold scores ds) e) else none)
        [d, d']
        = [resOf (setScore scores k v') (activeThreshold scores ds) d,
           resOf (setScore scores k v') (activeThreshold scores ds) d'] := by
      rw [List.filterMap_cons, List.filterMap_cons, if_pos hdpos', if_pos hd'pos']
      rfl
    have hpair' : [resOf (setScore scores k v') (activeThreshold scores ds) d,
        resOf (setScore scores k v') (activeThreshold scores ds) d'].Sublist
          (passTwo (setScore scores k v') (activeThreshold scores ds) ds) := by
      rw [passTwo_eq]
      have hf := List.Sublist.filterMap
        (fun e => if 0 < entityTotal (setScore scores k v') (activeThreshold scores ds) e
            then some (resOf (setScore scores k v') (activeThreshold scores ds) e) else none)
        hdd
      rwa [hfm'] at hf
    have hge' : resGe (resOf (setScore scores k v') (activeThreshold scores ds) d)
        (resOf (setScore scores k v') (activeThreshold scores ds) d') := by
      show (resOf (setScore scores k v') (activeThreshold scores ds) d').score
        ≤ (resOf (setScore scores k v') (activeThreshold scores ds) d).score
      rw [resOf_score, resOf_score, hd'tot, ← heqtot]
      exact hT
    have hfinal := List.pair_sublist_insertionSort hge' hpair'
    exact ⟨_, _, rfl, rfl, hfinal⟩

theorem ranking_monotone_check :
    beforeIn (findMatchingDestinations (setScore demoScores ("beach") 9) demoDests)
      ("A") ("B") :=
  ranking_monotone demoScores demoDests demoDestA demoDestB ("beach") 7 9
    (by decide) (by decide) (by decide) (by decide) (by decide) (by decide)
    (by decide) (by decide) (by decide)
    (by
      refine ⟨resOf demoScores 5 demoDestA, resOf demoScores 5 demoDestB, rfl, rfl, ?_⟩
      have hout : findMatchingDestinations demoScores demoDests
          = [resOf demoScores 5 demoDestA, resOf demoScores 5 demoDestB] := by decide
      rw [hout])

theorem catalog_load_recovery_check :
    (loadDestinations (fun _ => none) demoRaws).length = demoRaws.length
    ∧ (loadDestination (fun _ => none) demoRaw1).keywords = []
    ∧ (loadDestination (fun _ => none) demoRaw2).id = demoRaw2.DestinationID :=
  ⟨(catalog_load_recovery (fun _ => none) demoRaws 0 demoRaw1
      (by decide) (by decide) rfl).1,
   (catalog_load_recovery (fun _ => none) demoRaws 0 demoRaw1
      (by decide) (by decide) rfl).2.2.1,
   ((catalog_load_recovery (fun _ => none) demoRaws 0 demoRaw1
      (by decide) (by decide) rfl).2.2.2 1 demoRaw2 (by decide)).2⟩
